import Mathlib

/-!
Verification of the Career Adviser System's recommendation scorer, roadmap
generator, skill-gap computation, plan persistence and resource lookup.

The definitions below are shallow embeddings of the Python source files
`app.py`, `app_demo.py` and `recommender.py`.  Database-backed values
(career catalog, user skill set, user interests) are passed explicitly as
lists; the scorer's floating-point score is modelled exactly in `ℚ`
(`1.0` and `0.8` are the decimal weights of the source).
-/

namespace CareerAdviser

/-- Python substring containment (`sub in s`) on character lists:
`leadsWith sub l` holds when `sub` matches at the head of `l`. -/
def leadsWith : List Char → List Char → Bool
  | [], _ => true
  | _ :: _, [] => false
  | c :: cs, d :: ds => c = d && leadsWith cs ds

/-- Python substring containment (`sub in s`) on character lists:
`occursIn sub l` holds when `sub` occurs contiguously anywhere in `l`. -/
def occursIn (sub : List Char) : List Char → Bool
  | [] => leadsWith sub []
  | d :: ds => leadsWith sub (d :: ds) || occursIn sub ds

/-- Python `sub in s` for strings. -/
def strIn (sub s : String) : Bool := occursIn sub.toList s.toList

/-- Python `str.lower()` (ASCII case folding, which covers all strings the
program manipulates), as a structurally recursive map over characters. -/
def lowerStr (s : String) : String := String.mk (s.data.map Char.toLower)

/-- Python `str.strip()`: drop whitespace from both ends. -/
def stripStr (s : String) : String :=
  String.mk (((s.data.dropWhile Char.isWhitespace).reverse.dropWhile Char.isWhitespace).reverse)

/-- Python `sep.join(parts)`. -/
def joinSep (sep : String) : List String → String
  | [] => ""
  | a :: as => as.foldl (fun acc b => acc ++ sep ++ b) a

/-- A roadmap phase: a title together with an ordered list of step strings.
This is the shape of the dicts produced by `build_roadmap` in `app.py`. -/
structure Phase where
  title : String
  steps : List String
deriving DecidableEq, Repr

/-- The static curated-resource table `SKILL_RESOURCES` from `app.py`
(`app_demo.py` carries an identical copy). -/
def SKILL_RESOURCES : List (String × List String) :=
  [("python", ["Official Python Tutorial", "Automate the Boring Stuff"]),
   ("sql", ["SQLBolt", "Mode SQL Tutorial"]),
   ("data-structures", ["NeetCode Roadmap", "CS50 Data Structures"]),
   ("statistics", ["Khan Academy Stats", "Think Stats (book)"]),
   ("algorithms", ["Grokking Algorithms", "CLRS (chapters 1–4)"]),
   ("figma", ["Figma Learn", "Build a UI Kit"]),
   ("design-principles", ["Laws of UX", "Refactoring UI"])]

/-- Python `dict.get(k, [])` on an association list. -/
def dictGet (d : List (String × List String)) (k : String) : List String :=
  match d.find? (fun kv => kv.1 == k) with
  | some kv => kv.2
  | none => []

/-- The Foundations step text for one missing skill, from `app.py` line 25:
`" • ".join(SKILL_RESOURCES.get(s.lower(), [])[:2]) or "Pick a beginner resource"`
interpolated into the f-string of line 26. -/
def foundationStep (s : String) : String :=
  let res := joinSep " • " ((dictGet SKILL_RESOURCES (lowerStr s)).take 2)
  let res := if res = "" then "Pick a beginner resource" else res
  "Learn the basics of " ++ s ++ " (2–3 weeks). Suggested: " ++ res ++ "."

/-- `build_roadmap` from `app.py` (lines 20–46).  The `career_title`
argument is accepted and ignored exactly as in the source. -/
def build_roadmap (career_title : String) (required_skills missing_skills : List String) :
    List Phase :=
  let foundations : List Phase :=
    if missing_skills.isEmpty then []
    else [⟨"Foundations", missing_skills.map foundationStep⟩]
  foundations ++
    [⟨"Core Practice", required_skills.map (fun s =>
        "Do 3–5 medium practice sets for " ++ s ++ ". Summarize notes in a wiki/notion.")⟩,
     ⟨"Projects",
       ["Build Project 1: pick a small scoped idea (2 weeks).",
        "Build Project 2: increase scope, add 1 new concept (APIs, auth, charts, etc.).",
        "Write concise READMEs with screenshots; push everything to GitHub."]⟩,
     ⟨"Portfolio",
       ["Create a clean portfolio page (about, skills, 2 projects, contact).",
        "Polish LinkedIn: headline, summary, skills, project links.",
        "Prepare a 5-minute project walkthrough (story → demo → learning)."]⟩,
     ⟨"Apply & Iterate",
       ["Set a weekly target: 5 tailored applications + 1 coffee chat.",
        "Mock interviews weekly; log weak areas and revisit notes.",
        "Iterate projects based on feedback; ship small improvements weekly."]⟩]

/-- `build_roadmap` from `app_demo.py` (lines 18–56); it differs from the
`app.py` copy only in the wording of one Apply & Iterate step. -/
def build_roadmap_demo (career_title : String) (required_skills missing_skills : List String) :
    List Phase :=
  let foundations : List Phase :=
    if missing_skills.isEmpty then []
    else [⟨"Foundations", missing_skills.map foundationStep⟩]
  foundations ++
    [⟨"Core Practice", required_skills.map (fun s =>
        "Do 3–5 medium practice sets for " ++ s ++ ". Summarize notes in a wiki/notion.")⟩,
     ⟨"Projects",
       ["Build Project 1: pick a small scoped idea (2 weeks).",
        "Build Project 2: increase scope, add 1 new concept (APIs, auth, charts, etc.).",
        "Write concise READMEs with screenshots; push everything to GitHub."]⟩,
     ⟨"Portfolio",
       ["Create a clean portfolio page (about, skills, 2 projects, contact).",
        "Polish LinkedIn: headline, summary, skills, project links.",
        "Prepare a 5-minute project walkthrough (story → demo → learning)."]⟩,
     ⟨"Apply & Iterate",
       ["Set a weekly target: 5 tailored applications + 1 coffee chat.",
        "Mock interviews weekly; keep a log of weak areas and revisit notes.",
        "Iterate projects based on feedback; ship small improvements weekly."]⟩]

/-- An entry of `CAREER_MAP` in `recommender.py`: a career name together
with its required-skill list. -/
structure CMEntry where
  career : String
  skills : List String
deriving DecidableEq, Repr

/-- The `CAREER_MAP` dict of `recommender.py` (lines 8–13), as an
insertion-ordered association list. -/
def CAREER_MAP : List (String × CMEntry) :=
  [("programming", ⟨"Software Engineer", ["python", "data-structures", "algorithms"]⟩),
   ("biology", ⟨"Biotech Researcher", ["molecular-bio", "lab-techniques", "statistics"]⟩),
   ("data", ⟨"Data Analyst", ["python", "sql", "statistics"]⟩),
   ("design", ⟨"UI/UX Designer", ["design-principles", "figma", "portfolio"]⟩)]

/-- The dedupe loop of `get_recommendations`: keep the first occurrence of
each career name, tracking the names already seen. -/
def dedupeBy (seen : List String) : List CMEntry → List CMEntry
  | [] => []
  | r :: rs =>
      if r.career ∈ seen then dedupeBy seen rs
      else r :: dedupeBy (r.career :: seen) rs

/-- `get_recommendations` from `recommender.py` (lines 15–33).  The `skills`
argument is accepted and ignored exactly as in the source. -/
def get_recommendations (interests skills : List String) : List CMEntry :=
  let recs := interests.flatMap (fun it =>
    let key := stripStr (lowerStr it)
    (CAREER_MAP.filter (fun kv => strIn kv.1 key || strIn key kv.1)).map Prod.snd)
  let out := dedupeBy [] recs
  if out.isEmpty then [⟨"General Counseling", ["communication", "career-planning"]⟩]
  else out

/-- The per-career missing set of `skill_gap` (`recommender.py` lines 39–40):
`required - user` on sets, with `user` already normalised by the caller. -/
def skill_gap_missing (r : CMEntry) (user : List String) : List String :=
  r.skills.dedup.filter (fun s => decide (s ∉ user))

/-- `skill_gap` from `recommender.py` (lines 35–42); the result dict is an
association list from career name to missing skills. -/
def skill_gap (recs : List CMEntry) (user_skills : List String) :
    List (String × List String) :=
  let user := user_skills.map (fun s => stripStr (lowerStr s))
  recs.map (fun r => (r.career, skill_gap_missing r user))

/-- A catalog career as seen by the `recommend` route of `app.py`: the title
together with the names of the skills of its requirement rows (one entry per
requirement whose `skill` relation is present, mirroring `if req.skill`). -/
structure CareerRec where
  title : String
  reqNames : List String
deriving DecidableEq, Repr

/-- The lowercased required-skill list of `app.py` line 172:
`[req.skill.name.lower() for req in career.requirements if req.skill and req.skill.name]`
(the truthiness test on the name drops empty names). -/
def reqsLower (c : CareerRec) : List String :=
  (c.reqNames.filter (fun n => n != "")).map lowerStr

/-- The interest part of the score (`app.py` lines 166–170): starting from 0,
add 1.0 for every interest that is a substring of the lowercased title. -/
def interestScore (il : List String) (title : String) : ℚ :=
  il.foldl (fun sc it => if strIn it (lowerStr title) then sc + 1 else sc) 0

/-- The skill-overlap count of `app.py` line 173: `len(set(reqs) & user_skills)`. -/
def overlapCount (uskills : List String) (c : CareerRec) : ℕ :=
  ((reqsLower c).dedup.filter (fun r => decide (r ∈ uskills))).length

/-- The total score of a career (`app.py` lines 166–174); the float weights
1.0 and 0.8 are modelled exactly in `ℚ`. -/
def candScore (il uskills : List String) (c : CareerRec) : ℚ :=
  interestScore il c.title + (overlapCount uskills c : ℚ) * (0.8 : ℚ)

/-- A candidate tuple `(career, reqs, score)` collected by the route. -/
structure Candidate where
  career : CareerRec
  reqs : List String
  score : ℚ
deriving DecidableEq, Repr

/-- The candidate-collection loop of `app.py` lines 164–176. -/
def scoredCandidates (catalog : List CareerRec) (il uskills : List String) :
    List Candidate :=
  catalog.filterMap (fun c =>
    if 0 < candScore il uskills c ∨ 0 < overlapCount uskills c then
      some ⟨c, reqsLower c, candScore il uskills c⟩
    else none)

/-- The fallback of `app.py` line 180: the first five catalog careers with
raw (neither lowercased nor emptiness-filtered) skill names and score 0. -/
def fallbackCandidates (catalog : List CareerRec) : List Candidate :=
  (catalog.take 5).map (fun c => ⟨c, c.reqNames, 0⟩)

/-- Stable descending insertion (by a `ℚ` key): a later element is placed
after every earlier element whose key is not smaller, which is how Python's
stable `list.sort(key=..., reverse=True)` treats ties. -/
def insertDesc {α : Type} (key : α → ℚ) (x : α) : List α → List α
  | [] => [x]
  | y :: ys => if key y ≤ key x then x :: y :: ys else y :: insertDesc key x ys

/-- Stable descending sort by a `ℚ` key, modelling
`candidates.sort(key=lambda x: x[2], reverse=True)` of `app.py` line 183. -/
def sortDesc {α : Type} (key : α → ℚ) : List α → List α
  | [] => []
  | x :: xs => insertDesc key x (sortDesc key xs)

/-- The candidate list just before sorting (`app.py` lines 164–180):
the scored candidates, or the fallback list when none qualified.  The
interests are lowercased first (`app.py` line 161). -/
def preSortCandidates (catalog : List CareerRec) (interests uskills : List String) :
    List Candidate :=
  let il := interests.map lowerStr
  let scored := scoredCandidates catalog il uskills
  if scored.isEmpty then fallbackCandidates catalog else scored

/-- The candidate list returned by the `recommend` route (`app.py` lines
164–183): candidates (or fallback), sorted by score descending. -/
def recommendCandidates (catalog : List CareerRec) (interests uskills : List String) :
    List Candidate :=
  sortDesc (fun e => e.score) (preSortCandidates catalog interests uskills)

/-- The missing-skill list of `app.py` line 192:
`[r for r in required_skills if r.lower() not in user_skills]`. -/
def routeMissing (uskills reqs : List String) : List String :=
  reqs.filter (fun r => decide (lowerStr r ∉ uskills))

/-- The flattened `"{phase title}: {step}"` sequence that the `save_plan`
route of `app.py` (lines 236–244) walks with its nested loops. -/
def flattenSteps (phases : List Phase) : List String :=
  phases.flatMap (fun ph => ph.steps.map (fun s => ph.title ++ ": " ++ s))

/-- The `order` counter of `save_plan`: number a list of step titles
consecutively starting from `n`. -/
def numberSteps : ℕ → List String → List (String × ℕ)
  | _, [] => []
  | n, t :: ts => (t, n) :: numberSteps (n + 1) ts

/-- The `(title, sort_order)` pairs of the `PlanStep` rows persisted by a
successful `save_plan` (`app.py` lines 236–251): the flattened roadmap
steps numbered from 1, then the fixed project step with the next order. -/
def save_plan_steps (phases : List Phase) : List (String × ℕ) :=
  numberSteps 1 (flattenSteps phases) ++
    [("Build a small project to demonstrate skills", (flattenSteps phases).length + 1)]

/-- A catalog career as seen by the `/resources` route of `app.py` (lines
255–273): its title, its own resources and, for each requirement, the
resources of the required skill — resources as `(title, url)` pairs. -/
structure RCareer where
  title : String
  resources : List (String × String)
  reqSkillResources : List (List (String × String))
deriving DecidableEq, Repr

/-- The JSON shapes the `/resources` route can return: a career-specific
payload (title echoed plus resource list) or the default resource page.
Both are 200 responses; the route has no 404 branch. -/
inductive ResourcesResponse where
  | forCareer (career : String) (resources : List (String × String)) : ResourcesResponse
  | page (resources : List (String × String)) : ResourcesResponse
deriving DecidableEq, Repr

/-- SQL `LIKE` pattern matching on character lists: `%` matches any
(possibly empty) sequence, `_` matches exactly one character, anything else
matches itself.  The fuel argument only drives the recursion: every call
consumes one unit of fuel and shortens pattern plus string by at least one
character, so with fuel `p.length + s.length + 1` the zero-fuel case is
unreachable. -/
def likeMatchAux : ℕ → List Char → List Char → Bool
  | 0, _, _ => false
  | _ + 1, [], [] => true
  | _ + 1, [], _ :: _ => false
  | n + 1, '%' :: ps, [] => likeMatchAux n ps []
  | n + 1, '%' :: ps, c :: cs => likeMatchAux n ps (c :: cs) || likeMatchAux n ('%' :: ps) cs
  | n + 1, '_' :: ps, _ :: cs => likeMatchAux n ps cs
  | _ + 1, _ :: _, [] => false
  | n + 1, p :: ps, c :: cs => (p == c) && likeMatchAux n ps cs

/-- SQL `LIKE` with adequate fuel. -/
def likeMatch (p s : List Char) : Bool := likeMatchAux (p.length + s.length + 1) p s

/-- The `Career.title.ilike(f'%{career_query}%')` test of `app.py` line 259:
the pattern is `%` ++ query ++ `%`, matched case-insensitively with SQL
`LIKE` semantics — so `%` and `_` inside the user-supplied query remain
active wildcards. -/
def titleMatches (q title : String) : Bool :=
  likeMatch (lowerStr ("%" ++ q ++ "%")).data (lowerStr title).data

/-- The `/resources` route of `app.py` (lines 255–273).  `allResources` is
the `Resource` table backing the default page; the Python `set` of
`(title, url)` pairs is modelled by `dedup`. -/
def resources_route (catalog : List RCareer) (allResources : List (String × String))
    (raw : String) : ResourcesResponse :=
  let q := stripStr raw
  if q != "" then
    match catalog.find? (fun c => titleMatches q c.title) with
    | some c =>
        ResourcesResponse.forCareer c.title
          ((c.resources ++ c.reqSkillResources.flatMap id).dedup)
    | none => ResourcesResponse.forCareer q []
  else
    ResourcesResponse.page (allResources.take 20)

/-- C4: `build_roadmap` returns exactly 4 phases when the missing-skill list
is empty and exactly 5 otherwise, and the Core Practice phase has exactly one
step per entry of the required-skill list; the same holds for the
`app_demo.py` copy. -/
theorem build_roadmap_phase_counts (t : String) (req miss : List String) :
    ((build_roadmap t req miss).length = if miss.isEmpty then 4 else 5)
    ∧ ((build_roadmap t req miss).filterMap
        (fun ph => if ph.title = "Core Practice" then some ph.steps.length else none)
          = [req.length])
    ∧ ((build_roadmap_demo t req miss).length = if miss.isEmpty then 4 else 5)
    ∧ ((build_roadmap_demo t req miss).filterMap
        (fun ph => if ph.title = "Core Practice" then some ph.steps.length else none)
          = [req.length]) := by
  cases miss <;> simp [build_roadmap, build_roadmap_demo]

/-- C7: the Foundations phase is emitted iff the missing-skill list is
non-empty, with one step per missing skill; a step's suggested-resource text
is the generic prompt when the static lookup yields nothing, and otherwise
the first two curated resource names joined by a bullet. -/
theorem foundations_phase_spec (t : String) (req miss : List String) :
    ((∃ ph ∈ build_roadmap t req miss, ph.title = "Foundations") ↔ miss ≠ [])
    ∧ ((build_roadmap t req miss).filterMap
        (fun ph => if ph.title = "Foundations" then some ph.steps else none)
          = if miss.isEmpty then [] else [miss.map foundationStep])
    ∧ (∀ s : String, dictGet SKILL_RESOURCES (lowerStr s) = [] →
        foundationStep s =
          "Learn the basics of " ++ s ++ " (2–3 weeks). Suggested: "
            ++ "Pick a beginner resource" ++ ".")
    ∧ (∀ kv ∈ SKILL_RESOURCES, foundationStep kv.1 =
        "Learn the basics of " ++ kv.1 ++ " (2–3 weeks). Suggested: "
          ++ joinSep " • " (kv.2.take 2) ++ ".") := by
  refine ⟨?_, ?_, ?_, ?_⟩
  · cases miss <;> simp [build_roadmap]
  · cases miss <;> simp [build_roadmap]
  · intro s h
    simp [foundationStep, h, joinSep]
  · decide

/-- Witness for C7 at concrete inputs: a missing skill present in the
resource table and one absent from it. -/
theorem foundations_phase_spec_w :
    foundationStep "pottery" =
      "Learn the basics of " ++ "pottery" ++ " (2–3 weeks). Suggested: "
        ++ "Pick a beginner resource" ++ "." :=
  (foundations_phase_spec "t" [] ["pottery"]).2.2.1 "pottery" (by decide)

/-- C9: `build_roadmap` is total and deterministic: it returns a non-empty
phase list for every input, every phase title is one of the five fixed
titles, and equal arguments yield equal outputs. -/
theorem build_roadmap_total (t : String) (req miss : List String) :
    (∃ ps : List Phase, build_roadmap t req miss = ps ∧ ps ≠ [])
    ∧ (∀ ph ∈ build_roadmap t req miss,
        ph.title ∈ ["Foundations", "Core Practice", "Projects", "Portfolio", "Apply & Iterate"])
    ∧ (∀ t2 req2 miss2, t = t2 → req = req2 → miss = miss2 →
        build_roadmap t req miss = build_roadmap t2 req2 miss2) := by
  refine ⟨⟨build_roadmap t req miss, rfl, ?_⟩, ?_, ?_⟩
  · cases miss <;> simp [build_roadmap]
  · intro ph hph
    cases miss with
    | nil =>
        simp [build_roadmap] at hph
        rcases hph with h | h | h | h <;> simp [h]
    | cons a as =>
        simp [build_roadmap] at hph
        rcases hph with h | h | h | h | h <;> simp [h]
  · intro t2 req2 miss2 h1 h2 h3
    rw [h1, h2, h3]

/-- Witness for C9 at a concrete input. -/
theorem build_roadmap_total_w :
    build_roadmap "Data Analyst" ["python"] [] = build_roadmap "Data Analyst" ["python"] [] :=
  (build_roadmap_total "Data Analyst" ["python"] []).2.2 "Data Analyst" ["python"] [] rfl rfl rfl

/-- Folding a conditional increment over a list counts the matches. -/
theorem foldl_if_count (p : String → Bool) (l : List String) (a : ℚ) :
    l.foldl (fun sc it => if p it then sc + 1 else sc) a = a + l.countP p := by
  induction l generalizing a with
  | nil => simp
  | cons x xs ih =>
      by_cases h : p x <;> simp [List.countP_cons, h, ih] <;> push_cast <;> ring

/-- The overlap count of the scorer is the cardinality of the intersection
of the case-folded required-skill set with the user-skill set. -/
theorem overlapCount_eq_card (uskills : List String) (c : CareerRec) :
    overlapCount uskills c = ((reqsLower c).toFinset ∩ uskills.toFinset).card := by
  have hn : ((reqsLower c).dedup.filter (fun r => decide (r ∈ uskills))).Nodup :=
    (List.nodup_dedup _).filter _
  rw [overlapCount, ← List.toFinset_card_of_nodup hn]
  congr 1
  ext x
  simp [List.mem_filter, List.mem_dedup, Finset.mem_inter]

/-- Membership in a stable descending insertion. -/
theorem mem_insertDesc {α : Type} (key : α → ℚ) (x : α) (l : List α) (a : α) :
    a ∈ insertDesc key x l ↔ a = x ∨ a ∈ l := by
  induction l with
  | nil => simp [insertDesc]
  | cons y ys ih =>
      rw [insertDesc]
      split <;> simp [ih] <;> tauto

/-- Inserting preserves the non-increasing-key ordering. -/
theorem pairwise_insertDesc {α : Type} (key : α → ℚ) (x : α) (l : List α)
    (h : l.Pairwise (fun a b => key b ≤ key a)) :
    (insertDesc key x l).Pairwise (fun a b => key b ≤ key a) := by
  induction l with
  | nil => simp [insertDesc]
  | cons y ys ih =>
      rw [List.pairwise_cons] at h
      obtain ⟨h1, h2⟩ := h
      rw [insertDesc]
      split
      · rename_i hyx
        refine List.Pairwise.cons ?_ (List.Pairwise.cons h1 h2)
        intro b hb
        rcases List.mem_cons.mp hb with rfl | hb
        · exact hyx
        · exact le_trans (h1 b hb) hyx
      · rename_i hyx
        refine List.Pairwise.cons ?_ (ih h2)
        intro b hb
        rcases (mem_insertDesc key x ys b).mp hb with rfl | hb
        · exact le_of_lt (not_le.mp hyx)
        · exact h1 b hb

/-- The stable descending sort produces a non-increasing key sequence. -/
theorem pairwise_sortDesc {α : Type} (key : α → ℚ) (l : List α) :
    (sortDesc key l).Pairwise (fun a b => key b ≤ key a) := by
  induction l with
  | nil => exact List.Pairwise.nil
  | cons x xs ih => exact pairwise_insertDesc key x _ ih

/-- Membership is preserved by the stable descending sort. -/
theorem mem_sortDesc {α : Type} (key : α → ℚ) (l : List α) (a : α) :
    a ∈ sortDesc key l ↔ a ∈ l := by
  induction l with
  | nil => simp [sortDesc]
  | cons x xs ih => rw [sortDesc, mem_insertDesc, ih, List.mem_cons]

/-- Filtering a fixed key value out of an insertion: the inserted element
goes in front of the equal-key elements already present (all elements it
jumps over have strictly larger keys). -/
theorem filter_insertDesc {α : Type} (key : α → ℚ) (x : α) (l : List α) (q : ℚ) :
    (insertDesc key x l).filter (fun a => decide (key a = q)) =
      if key x = q then x :: l.filter (fun a => decide (key a = q))
      else l.filter (fun a => decide (key a = q)) := by
  induction l with
  | nil => by_cases h : key x = q <;> simp [insertDesc, h]
  | cons y ys ih =>
      rw [insertDesc]
      split
      · by_cases h : key x = q <;> simp [List.filter_cons, h]
      · rename_i hyx
        have hlt : key x < key y := not_le.mp hyx
        by_cases h : key x = q
        · have hy : ¬ (key y = q) := by
            subst h
            exact ne_of_gt hlt
          simp [List.filter_cons, ih, h, hy]
        · by_cases hy : key y = q <;> simp [List.filter_cons, ih, h, hy]

/-- Stability of the descending sort: elements of any fixed key keep their
relative order from the input enumeration. -/
theorem filter_sortDesc {α : Type} (key : α → ℚ) (l : List α) (q : ℚ) :
    (sortDesc key l).filter (fun a => decide (key a = q)) =
      l.filter (fun a => decide (key a = q)) := by
  induction l with
  | nil => rfl
  | cons x xs ih =>
      rw [sortDesc, filter_insertDesc, ih]
      by_cases h : key x = q <;> simp [List.filter_cons, h]

/-- The `order` counter numbers the steps consecutively. -/
theorem numberSteps_map_snd (n : ℕ) (l : List String) :
    (numberSteps n l).map Prod.snd = List.range' n l.length := by
  induction l generalizing n with
  | nil => rfl
  | cons t ts ih => simp [numberSteps, List.range'_succ, ih]

/-- The dedupe loop of `get_recommendations` only keeps input elements. -/
theorem mem_dedupeBy (seen : List String) (l : List CMEntry) (r : CMEntry)
    (h : r ∈ dedupeBy seen l) : r ∈ l := by
  induction l generalizing seen with
  | nil => simpa [dedupeBy] using h
  | cons x xs ih =>
      rw [dedupeBy] at h
      split at h
      · exact List.mem_cons_of_mem _ (ih _ h)
      · rcases List.mem_cons.mp h with rfl | h
        · exact List.mem_cons_self _ _
        · exact List.mem_cons_of_mem _ (ih _ h)

/-- Every entry returned by `get_recommendations` is a `CAREER_MAP` value
or the General Counseling fallback. -/
theorem mem_get_recommendations (i sk : List String) (rec : CMEntry)
    (h : rec ∈ get_recommendations i sk) :
    rec ∈ CAREER_MAP.map Prod.snd
      ∨ rec = ⟨"General Counseling", ["communication", "career-planning"]⟩ := by
  simp only [get_recommendations] at h
  split at h
  · right
    simpa using h
  · left
    have h2 := mem_dedupeBy _ _ _ h
    rw [List.mem_flatMap] at h2
    obtain ⟨it, _, hrec⟩ := h2
    rw [List.mem_map] at hrec
    obtain ⟨kv, hkv, rfl⟩ := hrec
    exact List.mem_map_of_mem _ (List.mem_of_mem_filter hkv)

/-- All skill names carried by recommendation entries are already
lowercase. -/
theorem skills_lower_of_mem (rec : CMEntry)
    (h : rec ∈ CAREER_MAP.map Prod.snd
      ∨ rec = ⟨"General Counseling", ["communication", "career-planning"]⟩) :
    ∀ s ∈ rec.skills, lowerStr s = s := by
  rcases h with h | rfl
  · simp [CAREER_MAP] at h
    rcases h with rfl | rfl | rfl | rfl <;> decide
  · decide

/-- C1: the scorer assigns each career the score
(number of user interests that are a case-insensitive substring of the
career title) × 1.0 plus (cardinality of the intersection of the career's
case-folded required-skill set with the case-folded user-skill set) × 0.8.
`uskills` is the route's already case-folded user skill set. -/
theorem scorer_score_formula (interests uskills : List String) (c : CareerRec) :
    candScore (interests.map lowerStr) uskills c
      = (interests.countP (fun it => strIn (lowerStr it) (lowerStr c.title)) : ℚ) * 1
        + (((reqsLower c).toFinset ∩ uskills.toFinset).card : ℚ) * (0.8 : ℚ) := by
  rw [candScore, interestScore, foldl_if_count, List.countP_map, overlapCount_eq_card]
  simp [Function.comp_def]

/-- C6: the route's candidate list is sorted by score in non-increasing
order, and candidates of any fixed score keep their relative order from the
pre-sort candidate list (which enumerates the catalog in order), i.e. the
sort is stable with respect to ties. -/
theorem recommend_sorted_stable (catalog : List CareerRec) (interests uskills : List String) :
    (recommendCandidates catalog interests uskills).Pairwise (fun a b => b.score ≤ a.score)
    ∧ ∀ q : ℚ,
        (recommendCandidates catalog interests uskills).filter (fun e => decide (e.score = q))
          = (preSortCandidates catalog interests uskills).filter
              (fun e => decide (e.score = q)) :=
  ⟨pairwise_sortDesc _ _, fun q => filter_sortDesc _ _ q⟩

/-- C5: after a successful `save_plan`, the persisted `(title, sort_order)`
rows carry the consecutive orders 1, 2, … matching each step's 1-based
position in the flattened phase/step sequence, are strictly increasing, and
end with the fixed project step at the next order. -/
theorem save_plan_steps_ordered (phases : List Phase) :
    ((save_plan_steps phases).map Prod.snd = List.range' 1 ((flattenSteps phases).length + 1))
    ∧ (save_plan_steps phases).Pairwise (fun a b => a.2 < b.2)
    ∧ (save_plan_steps phases).getLast? =
        some ("Build a small project to demonstrate skills",
          (flattenSteps phases).length + 1) := by
  have h1 : (save_plan_steps phases).map Prod.snd
      = List.range' 1 ((flattenSteps phases).length + 1) := by
    rw [save_plan_steps, List.map_append, numberSteps_map_snd, List.range'_1_concat]
    simp [Nat.add_comm]
  refine ⟨h1, ?_, ?_⟩
  · have h2 := List.pairwise_lt_range' 1 ((flattenSteps phases).length + 1)
    rw [← h1] at h2
    exact List.pairwise_map.mp h2
  · exact List.getLast?_concat _

/-- C10: `get_recommendations` always returns a non-empty list, and when no
interest matches any catalog key (case-insensitive, matching when either
string contains the other) the result is exactly the General Counseling
fallback entry. -/
theorem get_recommendations_fallback (interests skills : List String) :
    get_recommendations interests skills ≠ []
    ∧ ((∀ it ∈ interests, ∀ kv ∈ CAREER_MAP,
          (strIn kv.1 (stripStr (lowerStr it)) || strIn (stripStr (lowerStr it)) kv.1)
            = false) →
        get_recommendations interests skills
          = [⟨"General Counseling", ["communication", "career-planning"]⟩]) := by
  constructor
  · simp only [get_recommendations]
    split
    · simp
    · rename_i hne
      intro hnil
      rw [hnil] at hne
      simp at hne
  · intro hno
    have hrecs : interests.flatMap (fun it =>
        (CAREER_MAP.filter (fun kv =>
            strIn kv.1 (stripStr (lowerStr it))
              || strIn (stripStr (lowerStr it)) kv.1)).map Prod.snd) = [] := by
      rw [List.flatMap_eq_nil_iff]
      intro it hit
      have hfil : CAREER_MAP.filter (fun kv =>
          strIn kv.1 (stripStr (lowerStr it))
            || strIn (stripStr (lowerStr it)) kv.1) = [] := by
        rw [List.filter_eq_nil_iff]
        intro kv hkv
        simp [hno it hit kv hkv]
      rw [hfil]
      rfl
    simp [get_recommendations, hrecs, dedupeBy]

/-- Witness for C10: the interest "gardening" matches no catalog key. -/
theorem get_recommendations_fallback_w :
    get_recommendations ["gardening"] [] =
      [⟨"General Counseling", ["communication", "career-planning"]⟩] :=
  (get_recommendations_fallback ["gardening"] []).2 (by decide)

/-- C3: the reported missing-skill list is exactly the required skills minus
the user's skills, compared case-insensitively — both for the `recommend`
route's per-career gap and for the standalone `skill_gap` function applied
to recommendation output. -/
theorem missing_skills_spec :
    (∀ uskills reqs : List String, ∀ r : String,
        r ∈ routeMissing uskills reqs ↔ (r ∈ reqs ∧ lowerStr r ∉ uskills))
    ∧ (∀ i sk us : List String, ∀ p : String × List String,
        p ∈ skill_gap (get_recommendations i sk) us →
          ∃ rec ∈ get_recommendations i sk, p.1 = rec.career ∧
            ∀ s : String, s ∈ p.2 ↔
              (s ∈ rec.skills ∧ lowerStr s ∉ us.map (fun u => stripStr (lowerStr u)))) := by
  constructor
  · intro us reqs r
    simp [routeMissing, List.mem_filter]
  · intro i sk us p hp
    simp only [skill_gap] at hp
    rw [List.mem_map] at hp
    obtain ⟨rec, hrec, rfl⟩ := hp
    refine ⟨rec, hrec, rfl, ?_⟩
    intro s
    have hl := skills_lower_of_mem rec (mem_get_recommendations i sk rec hrec)
    simp only [skill_gap_missing, List.mem_filter, List.mem_dedup, decide_eq_true_eq]
    constructor
    · rintro ⟨h1, h2⟩
      refine ⟨h1, ?_⟩
      rw [hl s h1]
      exact h2
    · rintro ⟨h1, h2⟩
      rw [hl s h1] at h2
      exact ⟨h1, h2⟩

/-- Witness for C3: user skill "Python" closes the python gap of the Data
Analyst recommendation, leaving sql and statistics. -/
theorem missing_skills_spec_w :
    ∃ rec ∈ get_recommendations ["data"] [],
      ("Data Analyst", ["sql", "statistics"]).1 = rec.career ∧
      ∀ s : String, s ∈ ("Data Analyst", ["sql", "statistics"]).2 ↔
        (s ∈ rec.skills ∧ lowerStr s ∉ ["Python"].map (fun u => stripStr (lowerStr u))) :=
  missing_skills_spec.2 ["data"] [] ["Python"]
    ("Data Analyst", ["sql", "statistics"]) (by decide)

/-- C8 fails on the code: the query `"%"` is not a literal case-insensitive
substring of the catalog title "Software Engineer", so the claim's premise
("matches no career (case-insensitive substring match)") holds — yet the
route's `ilike` pattern `%%%` matches every title, so the program returns
the matched career's payload instead of echoing the query with an empty
resource list. -/
theorem resources_claim_counterexample :
    stripStr "%" ≠ ""
    ∧ (∀ c ∈ [(⟨"Software Engineer", [], []⟩ : RCareer)],
        strIn (lowerStr (stripStr "%")) (lowerStr c.title) = false)
    ∧ resources_route [(⟨"Software Engineer", [], []⟩ : RCareer)] [] "%"
        ≠ ResourcesResponse.forCareer (stripStr "%") [] := by
  refine ⟨by decide, by decide, ?_⟩
  decide

/-- C8 amended: a non-empty career query whose SQL LIKE pattern
`%query%` (with `%` and `_` in the query acting as wildcards) matches no
catalog career title case-insensitively makes the `/resources` route return
the success payload with the queried title echoed and an empty resource
list — not a 404. -/
theorem resources_unmatched_echo (catalog : List RCareer) (allRes : List (String × String))
    (raw : String) (hq : stripStr raw ≠ "")
    (hnone : ∀ c ∈ catalog, titleMatches (stripStr raw) c.title = false) :
    resources_route catalog allRes raw = ResourcesResponse.forCareer (stripStr raw) [] := by
  have hfind : catalog.find? (fun c => titleMatches (stripStr raw) c.title) = none := by
    rw [List.find?_eq_none]
    intro c hc
    simp [hnone c hc]
  have hbne : (stripStr raw != "") = true := by
    simpa using hq
  simp [resources_route, hbne, hfind]

/-- Witness for C8: the query "zzz" matches no catalog title. -/
theorem resources_unmatched_echo_w :
    resources_route [⟨"Software Engineer", [], []⟩] [] "zzz"
      = ResourcesResponse.forCareer (stripStr "zzz") [] :=
  resources_unmatched_echo [⟨"Software Engineer", [], []⟩] [] "zzz" (by decide) (by decide)

/-- C2 fails on the code: with a catalog whose sole career "X" requires
nothing and a user with no interests and no skills, no career qualifies, so
the route returns the fallback entry, which has score 0 and zero overlap —
the membership criterion does not hold for fallback entries. -/
theorem membership_criterion_counterexample :
    ¬ ∀ e ∈ recommendCandidates [⟨"X", []⟩] [] [],
        0 < e.score ∨ 0 < overlapCount [] e.career := by
  intro h
  have hsc : scoredCandidates [⟨"X", []⟩] [] [] = [] := by
    norm_num [scoredCandidates, candScore, interestScore, overlapCount, reqsLower]
  have hmem : (⟨⟨"X", []⟩, [], 0⟩ : Candidate) ∈ recommendCandidates [⟨"X", []⟩] [] [] := by
    simp [recommendCandidates, preSortCandidates, hsc, fallbackCandidates, sortDesc, insertDesc]
  rcases h _ hmem with h1 | h1
  · exact absurd h1 (by norm_num)
  · simp [overlapCount, reqsLower] at h1

/-- C2 amended: every candidate produced by the scoring filter (the
non-fallback path, i.e. whenever some career qualifies) has score > 0 or
nonzero skill overlap; fallback entries are exempt from the criterion. -/
theorem membership_criterion_amended (catalog : List CareerRec)
    (interests uskills : List String) (e : Candidate)
    (hne : scoredCandidates catalog (interests.map lowerStr) uskills ≠ [])
    (he : e ∈ recommendCandidates catalog interests uskills) :
    0 < e.score ∨ 0 < overlapCount uskills e.career := by
  have hpre : e ∈ preSortCandidates catalog interests uskills :=
    (mem_sortDesc _ _ e).mp he
  simp only [preSortCandidates] at hpre
  rw [if_neg (by simpa [List.isEmpty_iff] using hne)] at hpre
  rw [scoredCandidates, List.mem_filterMap] at hpre
  obtain ⟨c, _, hfc⟩ := hpre
  by_cases hcond : 0 < candScore (interests.map lowerStr) uskills c
      ∨ 0 < overlapCount uskills c
  · rw [if_pos hcond] at hfc
    obtain rfl := Option.some.inj hfc
    simpa using hcond
  · rw [if_neg hcond] at hfc
    exact absurd hfc (by simp)

/-- Witness for the amended C2: a user with skill "python" and a catalog
career requiring it yields a qualifying candidate. -/
theorem membership_criterion_w :
    0 < candScore [] ["python"] ⟨"Dev", ["python"]⟩
      ∨ 0 < overlapCount ["python"] (⟨"Dev", ["python"]⟩ : CareerRec) := by
  have ho : overlapCount ["python"] (⟨"Dev", ["python"]⟩ : CareerRec) = 1 := by decide
  exact membership_criterion_amended [⟨"Dev", ["python"]⟩] [] ["python"]
    ⟨⟨"Dev", ["python"]⟩, reqsLower ⟨"Dev", ["python"]⟩,
      candScore [] ["python"] ⟨"Dev", ["python"]⟩⟩
    (by simp [scoredCandidates, ho])
    (by simp [recommendCandidates, preSortCandidates, scoredCandidates, ho,
          sortDesc, insertDesc])

end CareerAdviser
